import Mathlib

/-!
# X-Modem receiver (simplified 9-byte blocks)

A shallow embedding of `X-Modem - Empfaenger 2025.cpp`: the control bytes, the
block checksum, the receiving loop of `main` and the program `main` itself,
followed by theorems about them.

Bytes (`unsigned char`) are natural numbers, reduced modulo 256 wherever the
program casts to `unsigned char`; the result of a read (`int`) is an integer.
The serial port is a scripted byte source that records every operation
performed on it.
-/

namespace XModem

/-! ## Control bytes and block layout -/

/-- Start Of Header. -/
def SOH : Nat := 0x01
/-- End Of Text (padding). -/
def ETX : Nat := 0x03
/-- End Of Transmission. -/
def EOT : Nat := 0x04
/-- Acknowledge. -/
def ACK : Nat := 0x06
/-- No Acknowledge. -/
def NAK : Nat := 0x15
/-- Cancel (unused by the receiver). -/
def CAN : Nat := 0x18

/-- Number of payload bytes of a block. -/
def DATABYTES : Nat := 5
/-- Size of a block: `| SOH | n | 255-n | data(5) | checksum |`. -/
def BLOCKSIZE : Nat := 3 + DATABYTES + 1

/-- The conversion `static_cast<unsigned char>(x)` of an `int`. -/
def toUChar (x : Int) : Nat := (x % 256).toNat

/-- Checksum: the sum of the 5 data bytes mod 256
(`int sum = 0; for (i < DATABYTES) sum += data5[i]; return (unsigned char)(sum % 256)`). -/
def checksum5 (data5 : List Nat) : Nat :=
  let sum : Int :=
    (List.range DATABYTES).foldl (fun (sum : Int) (i : Nat) => sum + ((data5.getD i 0 : Nat) : Int)) 0
  toUChar (sum % 256)

/-! ## The serial port -/

/-- One operation performed on the serial port. -/
inductive Op where
  | open (ok : Bool)
  | read (result : Int)
  | write (b : Nat)
  | close
  deriving DecidableEq

/-- Modelled from the spec: the class `Serial` of `Serial.h` is not part of the
sources. The byte channel is a scripted byte source: `script` holds the bytes
still to be delivered, `ops` the operations performed so far, oldest first. -/
structure Serial where
  script : List Nat
  ops : List Op
  deriving DecidableEq

/-- Modelled from the spec: `Serial::read` of `Serial.h`, `readByte() -> byte |
EndOfStream`. It delivers the next byte of the script, or `-1` once the script
is exhausted. -/
def Serial.read (com : Serial) : Int × Serial :=
  match com.script with
  | [] => (-1, { com with ops := com.ops ++ [Op.read (-1)] })
  | b :: rest => ((b : Int), { script := rest, ops := com.ops ++ [Op.read (b : Int)] })

/-- Modelled from the spec: `Serial::write` of `Serial.h`, `writeByte(b) -> void`,
a single-byte send. -/
def Serial.write (com : Serial) (b : Nat) : Serial :=
  { com with ops := com.ops ++ [Op.write b] }

/-- Modelled from the spec: `Serial::close` of `Serial.h`, `close() -> void`. -/
def Serial.close (com : Serial) : Serial :=
  { com with ops := com.ops ++ [Op.close] }

/-- Read one byte (blocking, `-1` on error or closed channel). -/
def readByte (com : Serial) : Int × Serial :=
  let r := com.read
  (r.1, r.2)

/-- The bytes written to the channel, in order. -/
def written (ops : List Op) : List Nat :=
  ops.filterMap (fun o => match o with
    | Op.write b => some b
    | _ => none)

/-! ## Console output -/

/-- The lines `main` prints, by kind. -/
inductive Msg where
  | fehlerOeffnen
  | gestartet
  | sendeNak
  | leseFehler
  | eotErhalten
  | ioFehlerBlock
  | blockEmpfangen (blk : List Nat)
  | headerUngueltig
  | checksummeFalsch (calcd got : Nat)
  | warnung (erwartet erhalten : Nat)
  | blockOk
  | empfangeneNachricht (nachricht : List Nat)
  deriving DecidableEq

/-! ## The receiving loop -/

/-- The variables of `main` that the receiving loop works on. -/
structure State where
  com : Serial
  nachricht : List Nat
  erwarteterBlock : Nat
  console : List Msg
  deriving DecidableEq

/-- The loop `for (int i = 1; i < BLOCKSIZE; ++i)` that reads the remaining
bytes of a block: `k` iterations are left, `i` is the index written next. The
result is `(ioError, com, blk)`. -/
def readRest : Nat → Nat → Serial → List Nat → Bool × Serial × List Nat
  | 0, _, com, blk => (false, com, blk)
  | k + 1, i, com, blk =>
    let r := readByte com
    if r.1 < 0 then (true, r.2, blk)
    else readRest k (i + 1) r.2 (blk.set i (toUChar r.1))

/-- The loop `for (int i = 0; i < DATABYTES; ++i)` that takes over the data
bytes of a block, skipping `ETX`. -/
def takeData (blk : List Nat) (nachricht : List Nat) : List Nat :=
  (List.range DATABYTES).foldl
    (fun (m : List Nat) (i : Nat) =>
      let c := blk.getD (3 + i) 0
      if c ≠ ETX then m ++ [c] else m)
    nachricht

/-- One iteration of `while (true)`. The flag is `true` when the loop goes on
(`continue`, or the end of the body) and `false` on `break`. -/
def loopBody (s : State) : State × Bool :=
  let r0 := readByte s.com
  let b0 := r0.1
  let com1 := r0.2
  if b0 < 0 then
    ({ s with com := com1, console := s.console ++ [Msg.leseFehler] }, false)
  else
    let first := toUChar b0
    if first = EOT then
      ({ s with com := com1.write ACK, console := s.console ++ [Msg.eotErhalten] }, false)
    else if first ≠ SOH then
      ({ s with com := com1 }, true)
    else
      let blk0 := (List.replicate BLOCKSIZE 0).set 0 first
      let rr := readRest (BLOCKSIZE - 1) 1 com1 blk0
      let ioError := rr.1
      let com2 := rr.2.1
      let blk := rr.2.2
      if ioError then
        ({ s with com := com2.write NAK, console := s.console ++ [Msg.ioFehlerBlock] }, true)
      else
        let console1 := s.console ++ [Msg.blockEmpfangen blk]
        let n := blk.getD 1 0
        let inv := blk.getD 2 0
        let headerOk : Bool := decide (toUChar (255 - (n : Int)) = inv)
        if ¬ headerOk then
          ({ s with com := com2.write NAK, console := console1 ++ [Msg.headerUngueltig] }, true)
        else
          let calcd := checksum5 (blk.drop 3)
          let got := blk.getD 8 0
          if calcd ≠ got then
            ({ s with com := com2.write NAK,
                      console := console1 ++ [Msg.checksummeFalsch calcd got] }, true)
          else
            let console2 :=
              if n ≠ s.erwarteterBlock then console1 ++ [Msg.warnung s.erwarteterBlock n]
              else console1
            ({ com := com2.write ACK,
               nachricht := takeData blk s.nachricht,
               erwarteterBlock := toUChar ((s.erwarteterBlock : Int) + 1),
               console := console2 ++ [Msg.blockOk] }, true)

set_option linter.unusedVariables false in
/-- The loop `while (true) { ... }` of `main`: iterate `loopBody` until it
breaks. Every iteration that goes on has consumed at least one byte of the
script, so the loop ends. -/
def loop (s : State) : State :=
  if h : (loopBody s).2 = true then loop (loopBody s).1 else (loopBody s).1
termination_by s.com.script.length
decreasing_by
  have hle : ∀ (k i : Nat) (com : Serial) (blk : List Nat),
      (readRest k i com blk).2.1.script.length ≤ com.script.length := by
    intro k
    induction k with
    | zero => intro i com blk; simp [readRest]
    | succ k ih =>
      intro i com blk
      simp only [readRest, readByte]
      split
      · cases hc : com.script <;> simp [Serial.read, hc]
      · refine le_trans (ih _ _ _) ?_
        cases hc : com.script <;> simp [Serial.read, hc]
  cases hs : s.com.script with
  | nil => simp [loopBody, readByte, Serial.read, hs] at h
  | cons b rest =>
    have hr := hle (BLOCKSIZE - 1) 1
      { script := rest, ops := s.com.ops ++ [Op.read (b : Int)] }
      ((List.replicate BLOCKSIZE 0).set 0 (toUChar (b : Int)))
    simp only [loopBody, readByte, Serial.read, hs, Serial.write] at h ⊢
    generalize readRest (BLOCKSIZE - 1) 1 _ _ = rr at h hr ⊢
    simp only [List.length_cons]
    split_ifs at h ⊢
    all_goals first
      | exact Nat.lt_succ_self _
      | exact Nat.lt_succ_of_le hr

/-- The outcome of a run of `main`. -/
structure Outcome where
  exitCode : Nat
  ops : List Op
  nachricht : List Nat
  erwarteterBlock : Nat
  console : List Msg
  deriving DecidableEq

/-- The state in which `main` enters the receiving loop: the port is open, the
readiness `NAK` is sent, the message is empty and block 1 is expected. -/
def initState (script : List Nat) : State :=
  { com := Serial.write { script := script, ops := [Op.open true] } NAK,
    nachricht := [],
    erwarteterBlock := 1,
    console := [Msg.gestartet, Msg.sendeNak] }

/-- The program `main`. `openOk` is the result of `com.open()` and `script` the
bytes the sender delivers. When the port does not open, `main` returns 1 before
the message and the block counter exist; the outcome then shows their initial
values. -/
def main (openOk : Bool) (script : List Nat) : Outcome :=
  if ¬ openOk then
    { exitCode := 1, ops := [Op.open false], nachricht := [], erwarteterBlock := 1,
      console := [Msg.fehlerOeffnen] }
  else
    let s := loop (initState script)
    let com := s.com.close
    { exitCode := 0, ops := com.ops, nachricht := s.nachricht,
      erwarteterBlock := s.erwarteterBlock,
      console := s.console ++ [Msg.empfangeneNachricht s.nachricht] }

/-- A structurally valid block as it travels over the line: `SOH`, the block
number `n`, its complement `255 - n`, the payload and the sum of the payload
mod 256. -/
def validBlock (n : Nat) (payload : List Nat) : List Nat :=
  [SOH, n, 255 - n] ++ payload ++ [payload.sum % 256]

/-- The state after the valid block `validBlock n payload` has been received in
state `s`, with `rest` still to be read. -/
def accepted (s : State) (n : Nat) (payload rest : List Nat) : State :=
  { com := { script := rest,
             ops := s.com.ops ++ (validBlock n payload).map (fun b => Op.read (b : Int))
               ++ [Op.write ACK] },
    nachricht := s.nachricht ++ payload.filter (fun c => c ≠ ETX),
    erwarteterBlock := (s.erwarteterBlock + 1) % 256,
    console := s.console ++ [Msg.blockEmpfangen (validBlock n payload)]
               ++ (if n ≠ s.erwarteterBlock then [Msg.warnung s.erwarteterBlock n] else [])
               ++ [Msg.blockOk] }

/-- The state `s` with the operations `o` put in front of its channel log. -/
def addOps (o : List Op) (s : State) : State :=
  { s with com := { s.com with ops := o ++ s.com.ops } }

/-- The state `s` with the bytes still to be delivered replaced by `script`. -/
def withScript (s : State) (script : List Nat) : State :=
  { s with com := { s.com with script := script } }

/-- The state `s` with an empty channel log. -/
def clearOps (s : State) : State :=
  { s with com := { s.com with ops := [] } }

/-- The header check of `main`: the value of `headerOk` for the block number `n`
and the complement byte `inv`, `static_cast<unsigned char>(255 - n) == inv`. -/
def headerOk (n inv : Nat) : Bool :=
  decide (toUChar (255 - (n : Int)) = inv)

/-- The loop of `main` run for at most `fuel` iterations: `none` when it has not
left the loop by then. -/
def loopFuel : Nat → State → Option State
  | 0, _ => none
  | fuel + 1, s =>
    if (loopBody s).2 = true then loopFuel fuel (loopBody s).1 else some (loopBody s).1

/-! ## Auxiliary facts -/

theorem loop_eq (s : State) :
    loop s = if (loopBody s).2 = true then loop (loopBody s).1 else (loopBody s).1 := by
  rw [loop]
  split <;> simp_all

theorem toUChar_natCast (b : Nat) : toUChar (b : Int) = b % 256 := by
  unfold toUChar
  omega

theorem toUChar_compl (n : Nat) (h : n < 256) : toUChar (255 - (n : Int)) = 255 - n := by
  unfold toUChar
  omega

theorem toUChar_succ (n : Nat) : toUChar ((n : Int) + 1) = (n + 1) % 256 := by
  unfold toUChar
  omega

theorem loopBody_nil (s : State) (hs : s.com.script = []) :
    loopBody s = ({ s with com := { script := [], ops := s.com.ops ++ [Op.read (-1)] },
                           console := s.console ++ [Msg.leseFehler] }, false) := by
  simp [loopBody, readByte, Serial.read, hs]

theorem loopBody_eot (s : State) (b : Nat) (rest : List Nat) (hs : s.com.script = b :: rest)
    (hb : b % 256 = EOT) :
    loopBody s = ({ s with com := { script := rest, ops := s.com.ops ++ [Op.read b, Op.write ACK] },
                           console := s.console ++ [Msg.eotErhalten] }, false) := by
  have h0 : ¬ ((b : Int) < 0) := by omega
  simp [loopBody, readByte, Serial.read, hs, toUChar_natCast, hb, Serial.write, h0]

theorem loopBody_noise (s : State) (b : Nat) (rest : List Nat) (hs : s.com.script = b :: rest)
    (hb : b % 256 ≠ EOT) (hb1 : b % 256 ≠ SOH) :
    loopBody s = ({ s with com := { script := rest, ops := s.com.ops ++ [Op.read b] } }, true) := by
  have h0 : ¬ ((b : Int) < 0) := by omega
  simp [loopBody, readByte, Serial.read, hs, toUChar_natCast, hb, hb1, h0]


theorem range_DATABYTES : List.range DATABYTES = [0, 1, 2, 3, 4] := by decide

theorem checksum5_eq (d0 d1 d2 d3 d4 : Nat) (rest : List Nat) :
    checksum5 (d0 :: d1 :: d2 :: d3 :: d4 :: rest) = (d0 + d1 + d2 + d3 + d4) % 256 := by
  simp only [checksum5, range_DATABYTES, List.foldl, List.getD_cons_zero, List.getD_cons_succ,
    toUChar]
  omega

theorem takeData_eq (b0 b1 b2 d0 d1 d2 d3 d4 : Nat) (rest m : List Nat) :
    takeData (b0 :: b1 :: b2 :: d0 :: d1 :: d2 :: d3 :: d4 :: rest) m
      = m ++ [d0, d1, d2, d3, d4].filter (fun c => c ≠ ETX) := by
  simp only [takeData, range_DATABYTES, List.foldl, List.getD_cons_zero, List.getD_cons_succ,
    List.filter]
  by_cases h0 : d0 = ETX <;> by_cases h1 : d1 = ETX <;> by_cases h2 : d2 = ETX <;>
    by_cases h3 : d3 = ETX <;> by_cases h4 : d4 = ETX <;> simp [h0, h1, h2, h3, h4]

theorem readRest_eight (com : Serial) (a b1 b2 b3 b4 b5 b6 b7 b8 : Nat) (rest : List Nat)
    (hs : com.script = b1 :: b2 :: b3 :: b4 :: b5 :: b6 :: b7 :: b8 :: rest) :
    readRest (BLOCKSIZE - 1) 1 com ((List.replicate BLOCKSIZE 0).set 0 a)
      = (false,
         { script := rest,
           ops := com.ops ++ [Op.read b1, Op.read b2, Op.read b3, Op.read b4, Op.read b5,
             Op.read b6, Op.read b7, Op.read b8] },
         [a, b1 % 256, b2 % 256, b3 % 256, b4 % 256, b5 % 256, b6 % 256, b7 % 256, b8 % 256]) := by
  have e : BLOCKSIZE - 1 = 8 := by decide
  have r : List.replicate BLOCKSIZE 0 = [0, 0, 0, 0, 0, 0, 0, 0, 0] := by decide
  have h0 : ∀ b : Nat, ¬ ((b : Int) < 0) := fun b => by omega
  simp [e, r, readRest, readByte, Serial.read, hs, h0, toUChar_natCast]

theorem readRest_short (k : Nat) : ∀ (i : Nat) (com : Serial) (blk : List Nat),
    com.script.length < k →
    (readRest k i com blk).1 = true ∧
    (readRest k i com blk).2.1
      = { script := [],
          ops := com.ops ++ com.script.map (fun b => Op.read (b : Int)) ++ [Op.read (-1)] } := by
  induction k with
  | zero => intro i com blk h; omega
  | succ k ih =>
    intro i com blk h
    cases hs : com.script with
    | nil => simp [readRest, readByte, Serial.read, hs]
    | cons b rest =>
      have h0 : ¬ ((b : Int) < 0) := by omega
      have hl : rest.length < k := by
        rw [hs] at h
        simp only [List.length_cons] at h
        omega
      have := ih (i + 1) { script := rest, ops := com.ops ++ [Op.read (b : Int)] }
        (blk.set i (toUChar (b : Int))) hl
      simp [readRest, readByte, Serial.read, hs, h0, this]

theorem loopBody_block (s : State) (b0 n inv d0 d1 d2 d3 d4 chk : Nat) (rest : List Nat)
    (hs : s.com.script = b0 :: n :: inv :: d0 :: d1 :: d2 :: d3 :: d4 :: chk :: rest)
    (hb0 : b0 % 256 = SOH)
    (hr : ∀ b ∈ [n, inv, d0, d1, d2, d3, d4, chk], b < 256) :
    loopBody s =
      (if inv ≠ 255 - n then
          { s with
            com := { script := rest,
                     ops := s.com.ops ++ [Op.read b0, Op.read n, Op.read inv, Op.read d0,
                       Op.read d1, Op.read d2, Op.read d3, Op.read d4, Op.read chk,
                       Op.write NAK] },
            console := s.console ++ [Msg.blockEmpfangen [SOH, n, inv, d0, d1, d2, d3, d4, chk],
                       Msg.headerUngueltig] }
        else if (d0 + d1 + d2 + d3 + d4) % 256 ≠ chk then
          { s with
            com := { script := rest,
                     ops := s.com.ops ++ [Op.read b0, Op.read n, Op.read inv, Op.read d0,
                       Op.read d1, Op.read d2, Op.read d3, Op.read d4, Op.read chk,
                       Op.write NAK] },
            console := s.console ++ [Msg.blockEmpfangen [SOH, n, inv, d0, d1, d2, d3, d4, chk],
                       Msg.checksummeFalsch ((d0 + d1 + d2 + d3 + d4) % 256) chk] }
        else
          { com := { script := rest,
                     ops := s.com.ops ++ [Op.read b0, Op.read n, Op.read inv, Op.read d0,
                       Op.read d1, Op.read d2, Op.read d3, Op.read d4, Op.read chk,
                       Op.write ACK] },
            nachricht := s.nachricht ++ [d0, d1, d2, d3, d4].filter (fun c => c ≠ ETX),
            erwarteterBlock := (s.erwarteterBlock + 1) % 256,
            console := s.console ++ [Msg.blockEmpfangen [SOH, n, inv, d0, d1, d2, d3, d4, chk]]
                       ++ (if n ≠ s.erwarteterBlock then [Msg.warnung s.erwarteterBlock n] else [])
                       ++ [Msg.blockOk] }, true) := by
  simp only [List.mem_cons, List.mem_singleton, forall_eq_or_imp, forall_eq, List.not_mem_nil,
    IsEmpty.forall_iff, implies_true, and_true] at hr
  obtain ⟨hn, hinv, h0, h1, h2, h3, h4, hchk⟩ := hr
  have hz : ¬ ((b0 : Int) < 0) := by omega
  have hne : ¬ (SOH = EOT) := by decide
  have hrr := readRest_eight
    (Serial.mk (n :: inv :: d0 :: d1 :: d2 :: d3 :: d4 :: chk :: rest)
      (s.com.ops ++ [Op.read (b0 : Int)])) SOH n inv d0 d1 d2 d3 d4 chk rest rfl
  simp only [Nat.mod_eq_of_lt hn, Nat.mod_eq_of_lt hinv, Nat.mod_eq_of_lt h0,
    Nat.mod_eq_of_lt h1, Nat.mod_eq_of_lt h2, Nat.mod_eq_of_lt h3, Nat.mod_eq_of_lt h4,
    Nat.mod_eq_of_lt hchk] at hrr
  simp only [loopBody, readByte, Serial.read, hs, hz, toUChar_natCast, hb0, hne, if_false,
    ne_eq, not_true_eq_false, hrr, List.getD_cons_zero, List.getD_cons_succ, List.drop,
    checksum5_eq, takeData_eq, toUChar_compl n hn, toUChar_succ, Serial.write]
  by_cases hh : inv = 255 - n
  · by_cases hc : (d0 + d1 + d2 + d3 + d4) % 256 = chk
    · by_cases he : n = s.erwarteterBlock <;> simp [hh, hc, he]
    · simp [hh, hc]
  · have hh2 : ¬ (255 - n = inv) := fun h => hh h.symm
    simp [hh, hh2]

theorem loopBody_truncated (s : State) (b0 : Nat) (p : List Nat)
    (hs : s.com.script = b0 :: p) (hb0 : b0 % 256 = SOH) (hp : p.length < 8) :
    loopBody s =
      ({ s with
         com := { script := [],
                  ops := s.com.ops ++ Op.read b0 :: p.map (fun b => Op.read (b : Int))
                    ++ [Op.read (-1), Op.write NAK] },
         console := s.console ++ [Msg.ioFehlerBlock] }, true) := by
  have hz : ¬ ((b0 : Int) < 0) := by omega
  have hne : ¬ (SOH = EOT) := by decide
  have e : BLOCKSIZE - 1 = 8 := by decide
  obtain ⟨h1, h2⟩ := readRest_short (BLOCKSIZE - 1) 1
    { script := p, ops := s.com.ops ++ [Op.read (b0 : Int)] }
    ((List.replicate BLOCKSIZE 0).set 0 SOH) (by rw [e]; exact hp)
  simp [loopBody, readByte, Serial.read, hs, hz, toUChar_natCast, hb0, hne, h1, h2,
    Serial.write]

theorem written_append (a b : List Op) : written (a ++ b) = written a ++ written b := by
  simp [written, List.filterMap_append]

theorem written_reads (l : List Nat) : written (l.map (fun b => Op.read (b : Int))) = [] := by
  induction l with
  | nil => rfl
  | cons b l ih =>
    simp only [written, List.map_cons, List.filterMap_cons] at ih ⊢
    exact ih

/-- A property kept by every iteration holds when the loop has ended. -/
theorem loop_induction (P : State → Prop) (hstep : ∀ s, P s → P (loopBody s).1) :
    ∀ s, P s → P (loop s) := by
  intro s
  induction s using loop.induct with
  | case1 s hc ih =>
    intro hP
    rw [loop_eq, if_pos hc]
    exact ih (hstep s hP)
  | case2 s hc =>
    intro hP
    rw [loop_eq, if_neg hc]
    exact hstep s hP

theorem loop_nil (s : State) (hs : s.com.script = []) :
    loop s = { s with com := { script := [], ops := s.com.ops ++ [Op.read (-1)] },
                      console := s.console ++ [Msg.leseFehler] } := by
  rw [loop_eq, loopBody_nil s hs]
  simp

theorem loop_validBlock (s : State) (n : Nat) (payload rest : List Nat)
    (hn : n < 256) (hl : payload.length = 5) (hp : ∀ b ∈ payload, b < 256)
    (hs : s.com.script = validBlock n payload ++ rest) :
    loop s = loop (accepted s n payload rest) := by
  match payload, hl with
  | [d0, d1, d2, d3, d4], _ =>
    simp only [List.mem_cons, List.mem_singleton, forall_eq_or_imp, forall_eq, List.not_mem_nil,
      IsEmpty.forall_iff, implies_true, and_true] at hp
    obtain ⟨h0, h1, h2, h3, h4⟩ := hp
    have hsum : [d0, d1, d2, d3, d4].sum = d0 + d1 + d2 + d3 + d4 := by
      simp only [List.sum_cons, List.sum_nil]
      omega
    have hb := loopBody_block s SOH n (255 - n) d0 d1 d2 d3 d4 ((d0 + d1 + d2 + d3 + d4) % 256)
      rest (by rw [hs]; simp [validBlock, hsum]) (by decide) (by
        intro b hb
        simp only [List.mem_cons, List.mem_singleton, List.not_mem_nil, or_false] at hb
        rcases hb with h | h | h | h | h | h | h | h <;> subst h <;> omega)
    rw [loop_eq, hb]
    simp [accepted, validBlock, hsum]

theorem loop_truncated (s : State) (b0 : Nat) (p : List Nat)
    (hs : s.com.script = b0 :: p) (hb0 : b0 % 256 = SOH) (hp : p.length < 8) :
    loop s =
      { s with
        com := { script := [],
                 ops := s.com.ops ++ Op.read b0 :: p.map (fun b => Op.read (b : Int))
                   ++ [Op.read (-1), Op.write NAK] ++ [Op.read (-1)] },
        console := s.console ++ [Msg.ioFehlerBlock] ++ [Msg.leseFehler] } := by
  rw [loop_eq, loopBody_truncated s b0 p hs hb0 hp]
  simp only [if_true]
  rw [loop_nil _ rfl]

theorem loop_eot (s : State) (b : Nat) (rest : List Nat) (hs : s.com.script = b :: rest)
    (hb : b % 256 = EOT) :
    loop s = { s with com := { script := rest, ops := s.com.ops ++ [Op.read b, Op.write ACK] },
                      console := s.console ++ [Msg.eotErhalten] } := by
  rw [loop_eq, loopBody_eot s b rest hs hb]
  simp

theorem readRest_addOps (o : List Op) (k : Nat) : ∀ (i : Nat) (com : Serial) (blk : List Nat),
    readRest k i { script := com.script, ops := o ++ com.ops } blk
      = ((readRest k i com blk).1,
         { script := (readRest k i com blk).2.1.script,
           ops := o ++ (readRest k i com blk).2.1.ops },
         (readRest k i com blk).2.2) := by
  induction k with
  | zero => intro i com blk; simp [readRest]
  | succ k ih =>
    intro i com blk
    cases hs : com.script with
    | nil => simp [readRest, readByte, Serial.read, hs]
    | cons b rest =>
      have h0 : ¬ ((b : Int) < 0) := by omega
      have := ih (i + 1) { script := rest, ops := com.ops ++ [Op.read (b : Int)] }
        (blk.set i (toUChar (b : Int)))
      simp only [readRest, readByte, Serial.read, hs, h0, if_false, ← List.append_assoc] at this ⊢
      exact this

theorem loopBody_addOps (o : List Op) (s : State) :
    loopBody (addOps o s) = (addOps o (loopBody s).1, (loopBody s).2) := by
  cases hs : s.com.script with
  | nil => simp [loopBody, addOps, readByte, Serial.read, hs]
  | cons b rest =>
    have h0 : ¬ ((b : Int) < 0) := by omega
    have hrr := readRest_addOps o (BLOCKSIZE - 1) 1
      (Serial.mk rest (s.com.ops ++ [Op.read (b : Int)]))
      ((List.replicate BLOCKSIZE 0).set 0 (toUChar (b : Int)))
    simp only [List.append_assoc] at hrr
    simp only [loopBody, addOps, readByte, Serial.read, hs, h0, if_false, Serial.write,
      List.append_assoc, hrr]
    split_ifs <;> rfl

theorem loop_addOps (o : List Op) (s : State) : loop (addOps o s) = addOps o (loop s) := by
  induction s using loop.induct with
  | case1 s hc ih =>
    rw [loop_eq (addOps o s), loop_eq s, loopBody_addOps]
    simp only [hc, if_true]
    exact ih
  | case2 s hc =>
    rw [loop_eq (addOps o s), loop_eq s, loopBody_addOps]
    simp only [hc, if_false]
    rfl

/-- The loop does not look at the channel log: it only appends to it. -/
theorem loop_clearOps (s : State) : loop s = addOps s.com.ops (loop (clearOps s)) := by
  rw [← loop_addOps]
  simp [addOps, clearOps]

theorem loop_noise (s : State) (b : Nat) (rest : List Nat) (hs : s.com.script = b :: rest)
    (hb : b % 256 ≠ EOT) (hb1 : b % 256 ≠ SOH) :
    loop s = loop { s with com := { script := rest, ops := s.com.ops ++ [Op.read b] } } := by
  rw [loop_eq, loopBody_noise s b rest hs hb hb1]
  simp

theorem takeData_mem (blk : List Nat) (x : Nat) (l : List Nat) : ∀ m : List Nat,
    x ∈ l.foldl (fun (m : List Nat) (i : Nat) =>
        let c := blk.getD (3 + i) 0
        if c ≠ ETX then m ++ [c] else m) m →
    x ∈ m ∨ x ≠ ETX := by
  induction l with
  | nil => intro m h; exact Or.inl h
  | cons i l ih =>
    intro m h
    rw [List.foldl_cons] at h
    rcases ih _ h with h1 | h1
    · by_cases hc : blk.getD (3 + i) 0 = ETX
      · simp only [hc, ne_eq, not_true_eq_false, if_false] at h1
        exact Or.inl h1
      · simp only [ne_eq, hc, not_false_eq_true, if_true, List.mem_append,
          List.mem_singleton] at h1
        rcases h1 with h2 | h2
        · exact Or.inl h2
        · exact Or.inr (h2 ▸ hc)
    · exact Or.inr h1

theorem loopBody_nachricht (s : State) :
    (loopBody s).1.nachricht = s.nachricht ∨
    ∃ blk, (loopBody s).1.nachricht = takeData blk s.nachricht := by
  simp only [loopBody]
  split_ifs
  all_goals first
    | exact Or.inl rfl
    | exact Or.inr ⟨_, rfl⟩

theorem loopBody_keeps_no_etx (s : State) (h : ETX ∉ s.nachricht) :
    ETX ∉ (loopBody s).1.nachricht := by
  rcases loopBody_nachricht s with h1 | ⟨blk, h1⟩
  · rw [h1]
    exact h
  · rw [h1]
    intro hmem
    rcases takeData_mem blk ETX _ _ hmem with h2 | h2
    · exact h h2
    · exact h2 rfl

theorem readRest_ops (k : Nat) : ∀ (i : Nat) (com : Serial) (blk : List Nat),
    ∃ l : List Int, (readRest k i com blk).2.1.ops = com.ops ++ l.map Op.read := by
  induction k with
  | zero => intro i com blk; exact ⟨[], by simp [readRest]⟩
  | succ k ih =>
    intro i com blk
    cases hs : com.script with
    | nil => exact ⟨[-1], by simp [readRest, readByte, Serial.read, hs]⟩
    | cons b rest =>
      have h0 : ¬ ((b : Int) < 0) := by omega
      obtain ⟨l, hl⟩ := ih (i + 1) (Serial.mk rest (com.ops ++ [Op.read (b : Int)]))
        (blk.set i (toUChar (b : Int)))
      refine ⟨(b : Int) :: l, ?_⟩
      simp only [readRest, readByte, Serial.read, hs, h0, if_false]
      rw [hl]
      simp

theorem readRest_script_le (k : Nat) : ∀ (i : Nat) (com : Serial) (blk : List Nat),
    (readRest k i com blk).2.1.script.length ≤ com.script.length := by
  induction k with
  | zero => intro i com blk; simp [readRest]
  | succ k ih =>
    intro i com blk
    simp only [readRest, readByte]
    split
    · cases hc : com.script <;> simp [Serial.read, hc]
    · refine le_trans (ih _ _ _) ?_
      cases hc : com.script <;> simp [Serial.read, hc]

/-- An iteration that goes on has consumed at least one byte of the script. -/
theorem loopBody_script_lt (s : State) (h : (loopBody s).2 = true) :
    (loopBody s).1.com.script.length < s.com.script.length := by
  cases hs : s.com.script with
  | nil => simp [loopBody, readByte, Serial.read, hs] at h
  | cons b rest =>
    have hr := readRest_script_le (BLOCKSIZE - 1) 1
      (Serial.mk rest (s.com.ops ++ [Op.read (b : Int)]))
      ((List.replicate BLOCKSIZE 0).set 0 (toUChar (b : Int)))
    simp only [loopBody, readByte, Serial.read, hs, Serial.write] at h ⊢
    generalize readRest (BLOCKSIZE - 1) 1 _ _ = rr at h hr ⊢
    simp only [List.length_cons]
    split_ifs at h ⊢
    all_goals first
      | exact Nat.lt_succ_self _
      | exact Nat.lt_succ_of_le hr

/-- What one iteration does: it reads at least once, writes at most one control
byte after the reads, and changes the session data only when it accepts a block. -/
theorem loopBody_outcome (s : State) :
    ∃ (r : Int) (l : List Int) (w : List Op) (c : List Msg),
      (loopBody s).1.com.ops = s.com.ops ++ (Op.read r :: l.map Op.read) ++ w ∧
      (loopBody s).1.console = s.console ++ c ∧
      ((w = [] ∧ c = [Msg.leseFehler] ∧ (loopBody s).1.nachricht = s.nachricht ∧
          (loopBody s).1.erwarteterBlock = s.erwarteterBlock ∧ (loopBody s).2 = false) ∨
       (w = [Op.write ACK] ∧ c = [Msg.eotErhalten] ∧ (loopBody s).1.nachricht = s.nachricht ∧
          (loopBody s).1.erwarteterBlock = s.erwarteterBlock ∧ (loopBody s).2 = false) ∨
       (w = [] ∧ c = [] ∧ (loopBody s).1.nachricht = s.nachricht ∧
          (loopBody s).1.erwarteterBlock = s.erwarteterBlock ∧ (loopBody s).2 = true) ∨
       (w = [Op.write NAK] ∧
          (c = [Msg.ioFehlerBlock] ∨ (∃ blk, c = [Msg.blockEmpfangen blk, Msg.headerUngueltig]) ∨
            ∃ blk x y, c = [Msg.blockEmpfangen blk, Msg.checksummeFalsch x y]) ∧
          (loopBody s).1.nachricht = s.nachricht ∧
          (loopBody s).1.erwarteterBlock = s.erwarteterBlock ∧ (loopBody s).2 = true) ∨
       (w = [Op.write ACK] ∧
          (∃ blk, (c = [Msg.blockEmpfangen blk, Msg.blockOk] ∨
              ∃ a b, c = [Msg.blockEmpfangen blk, Msg.warnung a b, Msg.blockOk]) ∧
            (loopBody s).1.nachricht = takeData blk s.nachricht) ∧
          (loopBody s).1.erwarteterBlock = (s.erwarteterBlock + 1) % 256 ∧
          (loopBody s).2 = true)) := by
  cases hs : s.com.script with
  | nil =>
    refine ⟨-1, [], [], [Msg.leseFehler], ?_, ?_, Or.inl ?_⟩ <;>
      simp [loopBody, readByte, Serial.read, hs]
  | cons b rest =>
    have h0 : ¬ ((b : Int) < 0) := by omega
    by_cases e1 : toUChar (b : Int) = EOT
    · refine ⟨(b : Int), [], [Op.write ACK], [Msg.eotErhalten], ?_, ?_, Or.inr (Or.inl ?_)⟩ <;>
        simp [loopBody, readByte, Serial.read, hs, h0, e1, Serial.write]
    by_cases e2 : toUChar (b : Int) = SOH
    swap
    · refine ⟨(b : Int), [], [], [], ?_, ?_, Or.inr (Or.inr (Or.inl ?_))⟩ <;>
        simp [loopBody, readByte, Serial.read, hs, h0, e1, e2]
    obtain ⟨l, hl⟩ := readRest_ops (BLOCKSIZE - 1) 1
      (Serial.mk rest (s.com.ops ++ [Op.read (b : Int)]))
      ((List.replicate BLOCKSIZE 0).set 0 (toUChar (b : Int)))
    have hne : ¬ (SOH = EOT) := by decide
    simp only [loopBody, readByte, Serial.read, hs, h0, e2, hne, if_false, ne_eq,
      not_true_eq_false, Serial.write]
    rw [e2] at hl
    generalize readRest (BLOCKSIZE - 1) 1 _ _ = rr at hl ⊢
    obtain ⟨io, com2, blk⟩ := rr
    simp only at hl ⊢
    rw [hl]
    refine ⟨(b : Int), l, ?_⟩
    cases io with
    | true =>
      exact ⟨[Op.write NAK], [Msg.ioFehlerBlock], by simp, by simp,
        Or.inr (Or.inr (Or.inr (Or.inl (by simp))))⟩
    | false =>
      by_cases hh : toUChar (255 - ((blk.getD 1 0 : Nat) : Int)) = blk.getD 2 0
      swap
      · exact ⟨[Op.write NAK], [Msg.blockEmpfangen blk, Msg.headerUngueltig],
          by simp [-List.getD_eq_getElem?_getD, hh],
          by simp [-List.getD_eq_getElem?_getD, hh],
          Or.inr (Or.inr (Or.inr (Or.inl (by simp [-List.getD_eq_getElem?_getD, hh]))))⟩
      by_cases hc : checksum5 (List.drop 3 blk) = blk.getD 8 0
      swap
      · exact ⟨[Op.write NAK], [Msg.blockEmpfangen blk,
            Msg.checksummeFalsch (checksum5 (List.drop 3 blk)) (blk.getD 8 0)],
          by simp [-List.getD_eq_getElem?_getD, hh, hc],
          by simp [-List.getD_eq_getElem?_getD, hh, hc],
          Or.inr (Or.inr (Or.inr (Or.inl (by simp [-List.getD_eq_getElem?_getD, hh, hc]))))⟩
      by_cases he : blk.getD 1 0 = s.erwarteterBlock
      · have hh2 : toUChar (255 - (s.erwarteterBlock : Int)) = blk.getD 2 0 := he ▸ hh
        exact ⟨[Op.write ACK], [Msg.blockEmpfangen blk, Msg.blockOk],
          by simp [-List.getD_eq_getElem?_getD, hh, hc],
          by simp [-List.getD_eq_getElem?_getD, hh, hh2, hc, he],
          Or.inr (Or.inr (Or.inr (Or.inr
            (by simp [-List.getD_eq_getElem?_getD, hh, hc, toUChar_succ]))))⟩
      · exact ⟨[Op.write ACK],
          [Msg.blockEmpfangen blk, Msg.warnung s.erwarteterBlock (blk.getD 1 0), Msg.blockOk],
          by simp [-List.getD_eq_getElem?_getD, hh, hc],
          by simp [-List.getD_eq_getElem?_getD, hh, hc, he],
          Or.inr (Or.inr (Or.inr (Or.inr
            (by simp [-List.getD_eq_getElem?_getD, hh, hc, toUChar_succ]))))⟩

theorem written_readResults (l : List Int) : written (l.map Op.read) = [] := by
  induction l with
  | nil => rfl
  | cons b l ih =>
    simp only [written, List.map_cons, List.filterMap_cons] at ih ⊢
    exact ih

/-- The loop only appends to the channel log, and what it appends starts with a
read. -/
theorem loop_ops_read (s : State) :
    ∃ (r : Int) (t : List Op), (loop s).com.ops = s.com.ops ++ Op.read r :: t := by
  obtain ⟨r, l, w, c, hops, -, -⟩ := loopBody_outcome s
  rw [loop_eq]
  by_cases hc : (loopBody s).2 = true
  · rw [if_pos hc, loop_clearOps]
    refine ⟨r, l.map Op.read ++ w ++ (loop (clearOps (loopBody s).1)).com.ops, ?_⟩
    simp [addOps, hops]
  · rw [if_neg hc]
    exact ⟨r, l.map Op.read ++ w, by simp [hops]⟩

theorem loopBody_no_close (s : State) (h : Op.close ∉ s.com.ops) :
    Op.close ∉ (loopBody s).1.com.ops := by
  obtain ⟨r, l, w, c, hops, -, hcase⟩ := loopBody_outcome s
  have hw : Op.close ∉ w := by
    rcases hcase with h1 | h1 | h1 | h1 | h1 <;> rw [h1.1] <;> simp
  rw [hops]
  simp only [List.mem_append, List.mem_cons, List.mem_map, not_or]
  refine ⟨⟨h, ?_, ?_⟩, hw⟩
  · intro hc
    cases hc
  · rintro ⟨x, -, hx⟩
    cases hx

/-- A property of the states in which an iteration begins carries over to the
state in which the loop ends. -/
theorem loop_invariant (P Q : State → Prop)
    (hstep : ∀ s, P s → (loopBody s).2 = true → P (loopBody s).1)
    (hlast : ∀ s, P s → (loopBody s).2 ≠ true → Q (loopBody s).1) :
    ∀ s, P s → Q (loop s) := by
  intro s
  induction s using loop.induct with
  | case1 s hc ih =>
    intro hP
    rw [loop_eq, if_pos hc]
    exact ih (hstep s hP hc)
  | case2 s hc =>
    intro hP
    rw [loop_eq, if_neg hc]
    exact hlast s hP hc

theorem takeData_append (blk : List Nat) (l : List Nat) : ∀ m : List Nat,
    ∃ t : List Nat,
      l.foldl (fun (m : List Nat) (i : Nat) =>
        let c := blk.getD (3 + i) 0
        if c ≠ ETX then m ++ [c] else m) m = m ++ t ∧ t.length ≤ l.length := by
  induction l with
  | nil => intro m; exact ⟨[], by simp⟩
  | cons i l ih =>
    intro m
    rw [List.foldl_cons]
    by_cases hc : blk.getD (3 + i) 0 = ETX
    · obtain ⟨t, ht, hlen⟩ := ih m
      refine ⟨t, ?_, ?_⟩
      · simpa only [hc, ne_eq, not_true_eq_false, if_false] using ht
      · simp only [List.length_cons]
        omega
    · obtain ⟨t, ht, hlen⟩ := ih (m ++ [blk.getD (3 + i) 0])
      refine ⟨blk.getD (3 + i) 0 :: t, ?_, ?_⟩
      · simp only [ne_eq, hc, not_false_eq_true, if_true] at ht ⊢
        rw [ht]
        simp
      · simp only [List.length_cons]
        omega

theorem takeData_extends (blk m : List Nat) :
    ∃ t : List Nat, takeData blk m = m ++ t ∧ t.length ≤ 5 := by
  obtain ⟨t, ht, hlen⟩ := takeData_append blk (List.range DATABYTES) m
  exact ⟨t, ht, by simpa [DATABYTES] using hlen⟩

theorem loopFuel_enough : ∀ (fuel : Nat) (s : State), s.com.script.length < fuel →
    loopFuel fuel s = some (loop s) := by
  intro fuel
  induction fuel with
  | zero => intro s h; omega
  | succ fuel ih =>
    intro s h
    rw [loop_eq]
    by_cases hc : (loopBody s).2 = true
    · have hlt := loopBody_script_lt s hc
      simp only [loopFuel, hc, if_true]
      exact ih _ (by omega)
    · simp [loopFuel, hc]

theorem loop_validBlocks_erw (blocks : List (Nat × List Nat)) : ∀ (s : State),
    (∀ blk ∈ blocks, blk.1 < 256 ∧ blk.2.length = 5 ∧ ∀ b ∈ blk.2, b < 256) →
    s.com.script = blocks.flatMap (fun blk => validBlock blk.1 blk.2) →
    s.erwarteterBlock < 256 →
    (loop s).erwarteterBlock = (s.erwarteterBlock + blocks.length) % 256 := by
  induction blocks with
  | nil =>
    intro s _ hs he
    rw [loop_nil s (by simpa using hs)]
    simp only [List.length_nil, Nat.add_zero]
    exact (Nat.mod_eq_of_lt he).symm
  | cons blk blocks ih =>
    intro s hb hs he
    obtain ⟨hn, hl, hp⟩ := hb blk (List.mem_cons_self _ _)
    rw [List.flatMap_cons] at hs
    rw [loop_validBlock s blk.1 blk.2 _ hn hl hp hs]
    rw [ih (accepted s blk.1 blk.2 (blocks.flatMap (fun blk => validBlock blk.1 blk.2)))
      (fun b hb2 => hb b (List.mem_cons_of_mem _ hb2)) rfl
      (by simp only [accepted]; exact Nat.mod_lt _ (by decide))]
    simp only [accepted, List.length_cons]
    omega

theorem checksum5_lt (data5 : List Nat) : checksum5 data5 < 256 := by
  simp only [checksum5, toUChar]
  omega

theorem checksum5_sum (p : List Nat) (hl : p.length = 5) : checksum5 p = p.sum % 256 := by
  match p, hl with
  | [d0, d1, d2, d3, d4], _ =>
    rw [checksum5_eq]
    simp only [List.sum_cons, List.sum_nil]
    congr 1
    omega

theorem headerOk_iff (n c : Nat) (hn : n < 256) : headerOk n c = true ↔ c = (255 - n) % 256 := by
  simp only [headerOk, decide_eq_true_eq, toUChar_compl n hn]
  constructor
  · intro h
    omega
  · intro h
    omega

/-- How one iteration changes the expected block number and the numbers of
`Block OK` lines, of `EOT` lines and of `ACK` bytes written: an iteration that
goes on either leaves all four or accepts a block and adds one to the block
number (8 bit), to the `Block OK` lines and to the `ACK` bytes; an iteration
that leaves the loop adds at most one `EOT` line with its `ACK`. -/
theorem loopBody_counts (s : State) :
    ((loopBody s).2 = true →
      (loopBody s).1.console.count Msg.eotErhalten = s.console.count Msg.eotErhalten ∧
      (((loopBody s).1.erwarteterBlock = s.erwarteterBlock ∧
          (loopBody s).1.console.count Msg.blockOk = s.console.count Msg.blockOk ∧
          (written (loopBody s).1.com.ops).count ACK = (written s.com.ops).count ACK) ∨
        ((loopBody s).1.erwarteterBlock = (s.erwarteterBlock + 1) % 256 ∧
          (loopBody s).1.console.count Msg.blockOk = s.console.count Msg.blockOk + 1 ∧
          (written (loopBody s).1.com.ops).count ACK = (written s.com.ops).count ACK + 1))) ∧
    ((loopBody s).2 ≠ true →
      (loopBody s).1.erwarteterBlock = s.erwarteterBlock ∧
      (loopBody s).1.console.count Msg.blockOk = s.console.count Msg.blockOk ∧
      (((loopBody s).1.console.count Msg.eotErhalten = s.console.count Msg.eotErhalten ∧
          (written (loopBody s).1.com.ops).count ACK = (written s.com.ops).count ACK) ∨
        ((loopBody s).1.console.count Msg.eotErhalten = s.console.count Msg.eotErhalten + 1 ∧
          (written (loopBody s).1.com.ops).count ACK
            = (written s.com.ops).count ACK + 1))) := by
  obtain ⟨r, l, w, c, hops, hcon, hcase⟩ := loopBody_outcome s
  have hwr : written (loopBody s).1.com.ops = written s.com.ops ++ written w := by
    rw [hops, written_append, written_append,
      show Op.read r :: l.map Op.read = (r :: l).map Op.read from rfl, written_readResults]
    simp
  have hz : List.count ACK (written []) = 0 := by decide
  have hn : List.count ACK (written [Op.write NAK]) = 0 := by decide
  have ha : List.count ACK (written [Op.write ACK]) = 1 := by decide
  rw [hwr, hcon]
  simp only [List.count_append]
  rcases hcase with h | h | h | h | h
  · obtain ⟨hw, hc, -, he, hf⟩ := h
    subst hw hc
    refine ⟨fun hx => absurd hx (by simp [hf]), fun _ => ⟨he, by simp, Or.inl ?_⟩⟩
    simp [hz]
  · obtain ⟨hw, hc, -, he, hf⟩ := h
    subst hw hc
    refine ⟨fun hx => absurd hx (by simp [hf]), fun _ => ⟨he, by simp, Or.inr ?_⟩⟩
    simp [ha]
  · obtain ⟨hw, hc, -, he, hf⟩ := h
    subst hw hc
    refine ⟨fun _ => ⟨by simp, Or.inl ⟨he, by simp, by simp [hz]⟩⟩,
      fun hx => absurd hf hx⟩
  · obtain ⟨hw, hc, -, he, hf⟩ := h
    subst hw
    refine ⟨fun _ => ?_, fun hx => absurd hf hx⟩
    rcases hc with hc | ⟨blk, hc⟩ | ⟨blk, x, y, hc⟩ <;> subst hc <;>
      exact ⟨by simp, Or.inl ⟨he, by simp, by simp [hn]⟩⟩
  · obtain ⟨hw, ⟨blk, hc, -⟩, he, hf⟩ := h
    subst hw
    refine ⟨fun _ => ?_, fun hx => absurd hf hx⟩
    rcases hc with hc | ⟨a, b, hc⟩ <;> subst hc <;>
      exact ⟨by simp, Or.inr ⟨he, by simp, by simp [ha]⟩⟩

theorem main_true_erwarteterBlock (script : List Nat) :
    (main true script).erwarteterBlock = (loop (initState script)).erwarteterBlock := by
  simp [main]

/-! ## Theorems -/

/-- C1: on a stream of `k` back-to-back structurally valid blocks that then ends,
the receiving loop writes exactly `k` `ACK` bytes and no `NAK`, and the message
grows by the payloads in order with every `ETX` byte removed. -/
theorem valid_stream_all_acked (blocks : List (Nat × List Nat)) (s : State)
    (hb : ∀ blk ∈ blocks, blk.1 < 256 ∧ blk.2.length = 5 ∧ ∀ b ∈ blk.2, b < 256)
    (hs : s.com.script = blocks.flatMap (fun blk => validBlock blk.1 blk.2)) :
    written (loop s).com.ops = written s.com.ops ++ List.replicate blocks.length ACK ∧
    (loop s).nachricht
      = s.nachricht ++ (blocks.flatMap (fun blk => blk.2)).filter (fun c => c ≠ ETX) := by
  induction blocks generalizing s with
  | nil =>
    rw [loop_nil s (by simpa using hs)]
    simp [written_append, written]
  | cons blk blocks ih =>
    obtain ⟨hn, hl, hp⟩ := hb blk (List.mem_cons_self _ _)
    rw [List.flatMap_cons] at hs
    rw [loop_validBlock s blk.1 blk.2 _ hn hl hp hs]
    obtain ⟨h1, h2⟩ := ih (accepted s blk.1 blk.2
        (blocks.flatMap (fun blk => validBlock blk.1 blk.2)))
      (fun b hb2 => hb b (List.mem_cons_of_mem _ hb2)) rfl
    rw [h1, h2]
    constructor
    · simp only [accepted, written_append, written_reads, List.append_nil, List.length_cons,
        List.replicate_succ, List.append_assoc]
      simp [written]
    · simp [accepted, List.flatMap_cons, List.filter_append]

/-- C1, witness: blocks 1, 2, 3 with the payloads `HELLO`, `WORLD` and `!` padded
with four `ETX` give the message `HELLOWORLD!` and exactly three `ACK`s after
the readiness `NAK`. -/
theorem valid_stream_all_acked_witness :
    written (loop (initState (validBlock 1 [72, 69, 76, 76, 79] ++
        (validBlock 2 [87, 79, 82, 76, 68] ++ validBlock 3 [33, 3, 3, 3, 3])))).com.ops
      = [NAK, ACK, ACK, ACK] ∧
    (loop (initState (validBlock 1 [72, 69, 76, 76, 79] ++
        (validBlock 2 [87, 79, 82, 76, 68] ++ validBlock 3 [33, 3, 3, 3, 3])))).nachricht
      = [72, 69, 76, 76, 79, 87, 79, 82, 76, 68, 33] :=
  valid_stream_all_acked
    [(1, [72, 69, 76, 76, 79]), (2, [87, 79, 82, 76, 68]), (3, [33, 3, 3, 3, 3])]
    (initState (validBlock 1 [72, 69, 76, 76, 79] ++
        (validBlock 2 [87, 79, 82, 76, 68] ++ validBlock 3 [33, 3, 3, 3, 3])))
    (by decide) (by decide)

/-- C2: for a complete 9-byte block the receiver writes exactly one control byte,
`ACK` if the complement byte is `255 - n` and the checksum byte is the sum of
the payload mod 256, and `NAK` otherwise (one `NAK` also when both checks fail). -/
theorem complete_block_single_response (s : State) (n inv d0 d1 d2 d3 d4 chk : Nat)
    (rest : List Nat)
    (hs : s.com.script = SOH :: n :: inv :: d0 :: d1 :: d2 :: d3 :: d4 :: chk :: rest)
    (hr : ∀ b ∈ [n, inv, d0, d1, d2, d3, d4, chk], b < 256) :
    written (loopBody s).1.com.ops
      = written s.com.ops ++
        [if inv = 255 - n ∧ chk = (d0 + d1 + d2 + d3 + d4) % 256 then ACK else NAK] ∧
    (loopBody s).1.com.script = rest := by
  rw [loopBody_block s SOH n inv d0 d1 d2 d3 d4 chk rest hs (by decide) hr]
  by_cases hh : inv = 255 - n
  · by_cases hc : (d0 + d1 + d2 + d3 + d4) % 256 = chk
    · simp [hh, hc, written_append, written]
    · have hc2 : ¬ (chk = (d0 + d1 + d2 + d3 + d4) % 256) := fun h => hc h.symm
      simp [hh, hc, hc2, written_append, written]
  · simp [hh, written_append, written]

/-- C2, witness: a block with a wrong complement and a wrong checksum is answered
by a single `NAK`. -/
theorem complete_block_single_response_witness :
    written (loopBody (initState [SOH, 1, 7, 72, 69, 76, 76, 79, 0, 9])).1.com.ops
      = [NAK, NAK] ∧
    (loopBody (initState [SOH, 1, 7, 72, 69, 76, 76, 79, 0, 9])).1.com.script = [9] :=
  complete_block_single_response (initState [SOH, 1, 7, 72, 69, 76, 76, 79, 0, 9])
    1 7 72 69 76 76 79 0 [9] rfl (by decide)

/-- C3, counterexample: when the stream ends after 4 of the 9 bytes of a block,
the receiver does write a control byte for the partial block: a `NAK` follows
the readiness `NAK`. -/
theorem partial_block_silent_counterexample :
    written (loop (initState [SOH, 1, 254, 72])).com.ops = [NAK, NAK] ∧
    written (initState [SOH, 1, 254, 72]).com.ops = [NAK] ∧
    written (loop (initState [SOH, 1, 254, 72])).com.ops
      ≠ written (initState [SOH, 1, 254, 72]).com.ops := by
  rw [loop_truncated (initState [SOH, 1, 254, 72]) SOH [1, 254, 72] rfl (by decide) (by decide)]
  decide

/-- C3, amended: when the stream ends in the middle of a block (after `SOH` and
fewer than 8 further bytes), the receiver writes exactly one `NAK` for the
partial block and goes on; the next read fails and ends the session there. -/
theorem partial_block_one_nak (s : State) (p : List Nat)
    (hs : s.com.script = SOH :: p) (hp : p.length < 8) :
    written (loop s).com.ops = written s.com.ops ++ [NAK] ∧
    (loopBody s).2 = true ∧
    (loopBody (loopBody s).1).2 = false ∧
    loop s = (loopBody (loopBody s).1).1 := by
  have h1 := loopBody_truncated s SOH p hs (by decide) hp
  refine ⟨?_, ?_, ?_, ?_⟩
  · rw [loop_truncated s SOH p hs (by decide) hp]
    simp [written_append, written_reads, written]
  · rw [h1]
  · rw [h1, loopBody_nil _ rfl]
  · rw [loop_truncated s SOH p hs (by decide) hp, h1, loopBody_nil _ rfl]

/-- C3, witness: the stream ends after 4 of 9 bytes. -/
theorem partial_block_one_nak_witness :
    written (loop (initState [SOH, 1, 254, 72])).com.ops = [NAK, NAK] ∧
    (loopBody (initState [SOH, 1, 254, 72])).2 = true ∧
    (loopBody (loopBody (initState [SOH, 1, 254, 72])).1).2 = false ∧
    loop (initState [SOH, 1, 254, 72])
      = (loopBody (loopBody (initState [SOH, 1, 254, 72])).1).1 :=
  partial_block_one_nak (initState [SOH, 1, 254, 72]) [1, 254, 72] rfl (by decide)

/-- C4: a read failure, on the first byte of an iteration or in the middle of a
block, leaves the message and the expected block number as they were before
the iteration began; no byte of the partial block is appended. -/
theorem io_fault_keeps_session_data (s : State)
    (h : s.com.script = [] ∨
      ∃ b0 p, s.com.script = b0 :: p ∧ b0 % 256 = SOH ∧ p.length < 8) :
    (loop s).nachricht = s.nachricht ∧ (loop s).erwarteterBlock = s.erwarteterBlock := by
  rcases h with h | ⟨b0, p, hs, hb0, hp⟩
  · rw [loop_nil s h]
    exact ⟨rfl, rfl⟩
  · rw [loop_truncated s b0 p hs hb0 hp]
    exact ⟨rfl, rfl⟩

/-- C4, witness: after the block `HELLO` the stream ends 4 bytes into the next
block; the message is still `HELLO` and block 2 is still expected. -/
theorem io_fault_keeps_session_data_witness :
    (loop (accepted (initState (validBlock 1 [72, 69, 76, 76, 79] ++ [SOH, 2, 253, 87]))
        1 [72, 69, 76, 76, 79] [SOH, 2, 253, 87])).nachricht = [72, 69, 76, 76, 79] ∧
    (loop (accepted (initState (validBlock 1 [72, 69, 76, 76, 79] ++ [SOH, 2, 253, 87]))
        1 [72, 69, 76, 76, 79] [SOH, 2, 253, 87])).erwarteterBlock = 2 :=
  io_fault_keeps_session_data
    (accepted (initState (validBlock 1 [72, 69, 76, 76, 79] ++ [SOH, 2, 253, 87]))
      1 [72, 69, 76, 76, 79] [SOH, 2, 253, 87])
    (Or.inr ⟨SOH, [2, 253, 87], rfl, by decide, by decide⟩)

/-- C5: a complete block with a valid header whose checksum byte is not the sum
of its payload mod 256 is answered by exactly one `NAK`; the expected block
number and the message stay as they are, and the loop goes on with the byte
that follows the block. -/
theorem checksum_mismatch_nak (s : State) (n d0 d1 d2 d3 d4 chk : Nat) (rest : List Nat)
    (hs : s.com.script = SOH :: n :: (255 - n) :: d0 :: d1 :: d2 :: d3 :: d4 :: chk :: rest)
    (hr : ∀ b ∈ [n, d0, d1, d2, d3, d4, chk], b < 256)
    (hc : chk ≠ (d0 + d1 + d2 + d3 + d4) % 256) :
    written (loopBody s).1.com.ops = written s.com.ops ++ [NAK] ∧
    (loopBody s).1.erwarteterBlock = s.erwarteterBlock ∧
    (loopBody s).1.nachricht = s.nachricht ∧
    (loopBody s).2 = true ∧
    (loopBody s).1.com.script = rest := by
  have hc2 : ¬ ((d0 + d1 + d2 + d3 + d4) % 256 = chk) := fun h => hc h.symm
  have hr2 : ∀ b ∈ [n, 255 - n, d0, d1, d2, d3, d4, chk], b < 256 := by
    intro b hb
    simp only [List.mem_cons, List.mem_singleton, List.not_mem_nil, or_false] at hb hr
    rcases hb with h | h | h | h | h | h | h | h
    · exact hr b (Or.inl h)
    · omega
    · exact hr b (Or.inr (Or.inl h))
    · exact hr b (Or.inr (Or.inr (Or.inl h)))
    · exact hr b (Or.inr (Or.inr (Or.inr (Or.inl h))))
    · exact hr b (Or.inr (Or.inr (Or.inr (Or.inr (Or.inl h)))))
    · exact hr b (Or.inr (Or.inr (Or.inr (Or.inr (Or.inr (Or.inl h))))))
    · exact hr b (Or.inr (Or.inr (Or.inr (Or.inr (Or.inr (Or.inr h))))))
  rw [loopBody_block s SOH n (255 - n) d0 d1 d2 d3 d4 chk rest hs (by decide) hr2]
  simp [hc2, written_append, written]

/-- C5, witness: the block `HELLO` with checksum byte 0 instead of 116. -/
theorem checksum_mismatch_nak_witness :
    written (loopBody (initState [SOH, 1, 254, 72, 69, 76, 76, 79, 0, SOH])).1.com.ops
      = [NAK, NAK] ∧
    (loopBody (initState [SOH, 1, 254, 72, 69, 76, 76, 79, 0, SOH])).1.erwarteterBlock = 1 ∧
    (loopBody (initState [SOH, 1, 254, 72, 69, 76, 76, 79, 0, SOH])).1.nachricht = [] ∧
    (loopBody (initState [SOH, 1, 254, 72, 69, 76, 76, 79, 0, SOH])).2 = true ∧
    (loopBody (initState [SOH, 1, 254, 72, 69, 76, 76, 79, 0, SOH])).1.com.script = [SOH] :=
  checksum_mismatch_nak (initState [SOH, 1, 254, 72, 69, 76, 76, 79, 0, SOH])
    1 72 69 76 76 79 0 [SOH] rfl (by decide) (by decide)

/-- C6: a complete block whose complement byte is not `255 - n` is answered by
exactly one `NAK`, whatever its checksum byte; the expected block number and
the message stay as they are, and the loop goes on after the block. -/
theorem header_mismatch_nak (s : State) (n inv d0 d1 d2 d3 d4 chk : Nat) (rest : List Nat)
    (hs : s.com.script = SOH :: n :: inv :: d0 :: d1 :: d2 :: d3 :: d4 :: chk :: rest)
    (hr : ∀ b ∈ [n, inv, d0, d1, d2, d3, d4, chk], b < 256)
    (hh : inv ≠ 255 - n) :
    written (loopBody s).1.com.ops = written s.com.ops ++ [NAK] ∧
    (loopBody s).1.erwarteterBlock = s.erwarteterBlock ∧
    (loopBody s).1.nachricht = s.nachricht ∧
    (loopBody s).2 = true ∧
    (loopBody s).1.com.script = rest := by
  rw [loopBody_block s SOH n inv d0 d1 d2 d3 d4 chk rest hs (by decide) hr]
  simp [hh, written_append, written]

/-- C6, witness: the block `HELLO` with a correct checksum and the complement
byte 7 instead of 254. -/
theorem header_mismatch_nak_witness :
    written (loopBody (initState [SOH, 1, 7, 72, 69, 76, 76, 79, 116, EOT])).1.com.ops
      = [NAK, NAK] ∧
    (loopBody (initState [SOH, 1, 7, 72, 69, 76, 76, 79, 116, EOT])).1.erwarteterBlock = 1 ∧
    (loopBody (initState [SOH, 1, 7, 72, 69, 76, 76, 79, 116, EOT])).1.nachricht = [] ∧
    (loopBody (initState [SOH, 1, 7, 72, 69, 76, 76, 79, 116, EOT])).2 = true ∧
    (loopBody (initState [SOH, 1, 7, 72, 69, 76, 76, 79, 116, EOT])).1.com.script = [EOT] :=
  header_mismatch_nak (initState [SOH, 1, 7, 72, 69, 76, 76, 79, 116, EOT])
    1 7 72 69 76 76 79 116 [EOT] rfl (by decide) (by decide)

/-- C7: a prefix of bytes that are neither `SOH` nor `EOT` is discarded without
any control byte: the loop run on `pre ++ rest` writes the same bytes and ends
with the same message and expected block number as the loop run on `rest`. -/
theorem noise_prefix_discarded (pre rest : List Nat) (s : State)
    (hp : ∀ b ∈ pre, b < 256 ∧ b ≠ SOH ∧ b ≠ EOT) :
    written (loop (withScript s (pre ++ rest))).com.ops
      = written (loop (withScript s rest)).com.ops ∧
    (loop (withScript s (pre ++ rest))).nachricht = (loop (withScript s rest)).nachricht ∧
    (loop (withScript s (pre ++ rest))).erwarteterBlock
      = (loop (withScript s rest)).erwarteterBlock := by
  induction pre generalizing s with
  | nil => exact ⟨rfl, rfl, rfl⟩
  | cons b pre ih =>
    obtain ⟨hb, hb1, hb2⟩ := hp b (List.mem_cons_self _ _)
    have e := loop_noise (withScript s (b :: pre ++ rest)) b (pre ++ rest) rfl
      (by rw [Nat.mod_eq_of_lt hb]; exact hb2) (by rw [Nat.mod_eq_of_lt hb]; exact hb1)
    have ih2 := ih { s with com := { s.com with ops := s.com.ops ++ [Op.read (b : Int)] } }
      (fun c hc => hp c (List.mem_cons_of_mem _ hc))
    have c1 := loop_clearOps
      (withScript { s with com := { s.com with ops := s.com.ops ++ [Op.read (b : Int)] } } rest)
    have c2 := loop_clearOps (withScript s rest)
    have c3 : clearOps (withScript
        { s with com := { s.com with ops := s.com.ops ++ [Op.read (b : Int)] } } rest)
        = clearOps (withScript s rest) := rfl
    rw [c3] at c1
    rw [c1] at ih2
    rw [e, c2]
    refine ⟨?_, ?_, ?_⟩
    · rw [show (withScript s (b :: pre ++ rest)).com.ops = s.com.ops from rfl]
      refine ih2.1.trans ?_
      simp [addOps, withScript, written_append, written]
    · exact ih2.2.1
    · exact ih2.2.2

/-- C7, witness: two noise bytes, the block `HELLO` and `EOT`: the noise changes
nothing, and the run writes one `ACK` for the block and one for `EOT` after the
readiness `NAK`. -/
theorem noise_prefix_discarded_witness :
    (written (loop (withScript (initState [])
        ([85, 170] ++ (validBlock 1 [72, 69, 76, 76, 79] ++ [EOT])))).com.ops
      = written (loop (withScript (initState [])
        (validBlock 1 [72, 69, 76, 76, 79] ++ [EOT]))).com.ops ∧
    (loop (withScript (initState [])
        ([85, 170] ++ (validBlock 1 [72, 69, 76, 76, 79] ++ [EOT])))).nachricht
      = (loop (withScript (initState [])
        (validBlock 1 [72, 69, 76, 76, 79] ++ [EOT]))).nachricht ∧
    (loop (withScript (initState [])
        ([85, 170] ++ (validBlock 1 [72, 69, 76, 76, 79] ++ [EOT])))).erwarteterBlock
      = (loop (withScript (initState [])
        (validBlock 1 [72, 69, 76, 76, 79] ++ [EOT]))).erwarteterBlock) ∧
    written (loop (initState
        ([85, 170] ++ (validBlock 1 [72, 69, 76, 76, 79] ++ [EOT])))).com.ops
      = [NAK, ACK, ACK] :=
  ⟨noise_prefix_discarded [85, 170] (validBlock 1 [72, 69, 76, 76, 79] ++ [EOT])
    (initState []) (by decide),
   by
    rw [loop_noise (initState ([85, 170] ++ (validBlock 1 [72, 69, 76, 76, 79] ++ [EOT])))
        85 (170 :: (validBlock 1 [72, 69, 76, 76, 79] ++ [EOT])) (by rfl) (by decide) (by decide),
      loop_noise _ 170 (validBlock 1 [72, 69, 76, 76, 79] ++ [EOT]) rfl (by decide)
        (by decide),
      loop_validBlock _ 1 [72, 69, 76, 76, 79] [EOT] (by decide) rfl (by decide) rfl,
      loop_eot _ EOT [] rfl (by decide)]
    decide⟩

/-- C8: when the byte read while waiting for a block is `EOT`, the receiver writes
exactly one `ACK` and leaves the loop; what follows the `EOT` is not read, so
the outcome is the same as with nothing after it. -/
theorem eot_acknowledged_and_final (s : State) (suffix : List Nat) :
    (loopBody (withScript s (EOT :: suffix))).2 = false ∧
    (loop (withScript s (EOT :: suffix))).com.script = suffix ∧
    written (loop (withScript s (EOT :: suffix))).com.ops = written s.com.ops ++ [ACK] ∧
    (loop (withScript s (EOT :: suffix))).nachricht = s.nachricht ∧
    (loop (withScript s (EOT :: suffix))).erwarteterBlock = s.erwarteterBlock ∧
    written (loop (withScript s (EOT :: suffix))).com.ops
      = written (loop (withScript s [EOT])).com.ops ∧
    (loop (withScript s (EOT :: suffix))).nachricht = (loop (withScript s [EOT])).nachricht ∧
    (loop (withScript s (EOT :: suffix))).erwarteterBlock
      = (loop (withScript s [EOT])).erwarteterBlock := by
  rw [loopBody_eot (withScript s (EOT :: suffix)) EOT suffix rfl (by decide),
    loop_eot (withScript s (EOT :: suffix)) EOT suffix rfl (by decide),
    loop_eot (withScript s [EOT]) EOT [] rfl (by decide)]
  simp [withScript, written_append, written]

/-- C9: a structurally valid block is accepted whether or not its block number is
the expected one: the receiver writes `ACK`, appends the payload without its
`ETX` bytes and increments the expected block number (as an 8-bit value); a
block number other than the expected one only adds a warning on the console. -/
theorem sequence_mismatch_still_accepted (s : State) (n d0 d1 d2 d3 d4 : Nat)
    (rest : List Nat)
    (hs : s.com.script = SOH :: n :: (255 - n) :: d0 :: d1 :: d2 :: d3 :: d4 ::
      ((d0 + d1 + d2 + d3 + d4) % 256) :: rest)
    (hr : ∀ b ∈ [n, d0, d1, d2, d3, d4], b < 256) :
    written (loopBody s).1.com.ops = written s.com.ops ++ [ACK] ∧
    (loopBody s).1.nachricht = s.nachricht ++ [d0, d1, d2, d3, d4].filter (fun c => c ≠ ETX) ∧
    (loopBody s).1.erwarteterBlock = (s.erwarteterBlock + 1) % 256 ∧
    (loopBody s).2 = true ∧
    (loopBody s).1.com.script = rest ∧
    (loopBody s).1.console
      = s.console ++ [Msg.blockEmpfangen [SOH, n, 255 - n, d0, d1, d2, d3, d4,
            (d0 + d1 + d2 + d3 + d4) % 256]]
          ++ (if n ≠ s.erwarteterBlock then [Msg.warnung s.erwarteterBlock n] else [])
          ++ [Msg.blockOk] := by
  have hr2 : ∀ b ∈ [n, 255 - n, d0, d1, d2, d3, d4, (d0 + d1 + d2 + d3 + d4) % 256],
      b < 256 := by
    intro b hb
    simp only [List.mem_cons, List.mem_singleton, List.not_mem_nil, or_false] at hb hr
    rcases hb with h | h | h | h | h | h | h | h
    · exact hr b (Or.inl h)
    · omega
    · exact hr b (Or.inr (Or.inl h))
    · exact hr b (Or.inr (Or.inr (Or.inl h)))
    · exact hr b (Or.inr (Or.inr (Or.inr (Or.inl h))))
    · exact hr b (Or.inr (Or.inr (Or.inr (Or.inr (Or.inl h)))))
    · exact hr b (Or.inr (Or.inr (Or.inr (Or.inr (Or.inr h)))))
    · omega
  rw [loopBody_block s SOH n (255 - n) d0 d1 d2 d3 d4 _ rest hs (by decide) hr2]
  simp [written_append, written]

/-- C9, witness: block number 7 arrives while block 1 is expected. -/
theorem sequence_mismatch_still_accepted_witness :
    written (loopBody (initState [SOH, 7, 248, 72, 69, 76, 3, 79, 43])).1.com.ops
      = [NAK, ACK] ∧
    (loopBody (initState [SOH, 7, 248, 72, 69, 76, 3, 79, 43])).1.nachricht
      = [72, 69, 76, 79] ∧
    (loopBody (initState [SOH, 7, 248, 72, 69, 76, 3, 79, 43])).1.erwarteterBlock = 2 ∧
    (loopBody (initState [SOH, 7, 248, 72, 69, 76, 3, 79, 43])).2 = true ∧
    (loopBody (initState [SOH, 7, 248, 72, 69, 76, 3, 79, 43])).1.com.script = [] ∧
    (loopBody (initState [SOH, 7, 248, 72, 69, 76, 3, 79, 43])).1.console
      = [Msg.gestartet, Msg.sendeNak,
         Msg.blockEmpfangen [SOH, 7, 248, 72, 69, 76, 3, 79, 43], Msg.warnung 1 7,
         Msg.blockOk] :=
  sequence_mismatch_still_accepted (initState [SOH, 7, 248, 72, 69, 76, 3, 79, 43])
    7 72 69 76 3 79 [] rfl (by decide)

/-- C10: the message never contains `ETX`, whatever the input stream: of an
accepted block every payload byte equal to `ETX` is dropped, wherever it
stands, and every other payload byte is appended in order. -/
theorem message_never_contains_etx (openOk : Bool) (script : List Nat)
    (s : State) (n d0 d1 d2 d3 d4 : Nat) (rest : List Nat)
    (hs : s.com.script = SOH :: n :: (255 - n) :: d0 :: d1 :: d2 :: d3 :: d4 ::
      ((d0 + d1 + d2 + d3 + d4) % 256) :: rest)
    (hr : ∀ b ∈ [n, d0, d1, d2, d3, d4], b < 256) :
    ETX ∉ (main openOk script).nachricht ∧
    (loopBody s).1.nachricht
      = s.nachricht ++ [d0, d1, d2, d3, d4].filter (fun c => c ≠ ETX) := by
  constructor
  · cases openOk with
    | false => simp [main]
    | true =>
      have h := loop_induction (fun t => ETX ∉ t.nachricht) loopBody_keeps_no_etx
        (initState script) (by simp [initState])
      simpa [main] using h
  · have hr2 : ∀ b ∈ [n, 255 - n, d0, d1, d2, d3, d4, (d0 + d1 + d2 + d3 + d4) % 256],
        b < 256 := by
      intro b hb
      simp only [List.mem_cons, List.mem_singleton, List.not_mem_nil, or_false] at hb hr
      rcases hb with h | h | h | h | h | h | h | h
      · exact hr b (Or.inl h)
      · omega
      · exact hr b (Or.inr (Or.inl h))
      · exact hr b (Or.inr (Or.inr (Or.inl h)))
      · exact hr b (Or.inr (Or.inr (Or.inr (Or.inl h))))
      · exact hr b (Or.inr (Or.inr (Or.inr (Or.inr (Or.inl h)))))
      · exact hr b (Or.inr (Or.inr (Or.inr (Or.inr (Or.inr h)))))
      · omega
    rw [loopBody_block s SOH n (255 - n) d0 d1 d2 d3 d4 _ rest hs (by decide) hr2]
    simp

/-- C10, witness: the payload `A ETX B ETX C` contributes `ABC`. -/
theorem message_never_contains_etx_witness :
    ETX ∉ (main true [SOH, 1, 254, 65, 3, 66, 3, 67, 204, EOT]).nachricht ∧
    (loopBody (initState [SOH, 1, 254, 65, 3, 66, 3, 67, 204, EOT])).1.nachricht
      = [65, 66, 67] :=
  message_never_contains_etx true [SOH, 1, 254, 65, 3, 66, 3, 67, 204, EOT]
    (initState [SOH, 1, 254, 65, 3, 66, 3, 67, 204, EOT]) 1 65 3 66 3 67 [EOT] rfl (by decide)

/-- C11: `checksum5` of a 5-byte payload is the arithmetic sum of the five bytes
reduced modulo 256; it has a value for every payload, and the value lies in
[0,255]. -/
theorem checksum5_is_sum_mod (d0 d1 d2 d3 d4 : Nat) :
    checksum5 [d0, d1, d2, d3, d4] = (d0 + d1 + d2 + d3 + d4) % 256 ∧
    checksum5 [d0, d1, d2, d3, d4] < 256 ∧
    ∀ data5 : List Nat, checksum5 data5 < 256 :=
  ⟨checksum5_eq d0 d1 d2 d3 d4 [], checksum5_lt _, checksum5_lt⟩

/-- C12: the header check accepts the block number `n` with the complement byte
`c` exactly when `c = (255 - n) mod 256`, so it accepts `(n, 255 - n)` and no
other complement; in the loop a complete block is turned down as
`Header ungueltig` exactly when that check fails. -/
theorem header_check_iff (n c : Nat) (hn : n < 256) (hc : c < 256)
    (s : State) (d0 d1 d2 d3 d4 chk : Nat) (rest : List Nat)
    (hs : s.com.script = SOH :: n :: c :: d0 :: d1 :: d2 :: d3 :: d4 :: chk :: rest)
    (hr : ∀ b ∈ [d0, d1, d2, d3, d4, chk], b < 256) :
    (headerOk n c = true ↔ c = (255 - n) % 256) ∧
    headerOk n (255 - n) = true ∧
    ((loopBody s).1.console
        = s.console ++ [Msg.blockEmpfangen [SOH, n, c, d0, d1, d2, d3, d4, chk],
            Msg.headerUngueltig]
      ↔ headerOk n c = false) := by
  have hr2 : ∀ b ∈ [n, c, d0, d1, d2, d3, d4, chk], b < 256 := by
    intro b hb
    simp only [List.mem_cons, List.mem_singleton, List.not_mem_nil, or_false] at hb hr
    rcases hb with h | h | h
    · omega
    · omega
    · exact hr b h
  have hmod : (255 - n) % 256 = 255 - n := Nat.mod_eq_of_lt (by omega)
  refine ⟨headerOk_iff n c hn, (headerOk_iff n (255 - n) hn).2 hmod.symm, ?_⟩
  rw [loopBody_block s SOH n c d0 d1 d2 d3 d4 chk rest hs (by decide) hr2]
  by_cases hh : c = 255 - n
  · have ht : headerOk n c = true := (headerOk_iff n c hn).2 (hh.trans hmod.symm)
    rw [ht]
    by_cases hk : (d0 + d1 + d2 + d3 + d4) % 256 = chk
    · by_cases he : n = s.erwarteterBlock
      · simp [hh, hk, ← he]
      · simp [hh, hk, he]
    · simp [hh, hk]
  · have hf : headerOk n c = false := by
      cases hb : headerOk n c with
      | false => rfl
      | true => exact absurd (((headerOk_iff n c hn).1 hb).trans hmod) hh
    rw [hf]
    simp [hh]

/-- C12, witness: block number 1 with the complement byte 7 (instead of 254). -/
theorem header_check_iff_witness :
    (headerOk 1 7 = true ↔ 7 = (255 - 1) % 256) ∧
    headerOk 1 (255 - 1) = true ∧
    ((loopBody (initState [SOH, 1, 7, 72, 69, 76, 76, 79, 116])).1.console
        = (initState [SOH, 1, 7, 72, 69, 76, 76, 79, 116]).console ++
          [Msg.blockEmpfangen [SOH, 1, 7, 72, 69, 76, 76, 79, 116], Msg.headerUngueltig]
      ↔ headerOk 1 7 = false) :=
  header_check_iff 1 7 (by decide) (by decide)
    (initState [SOH, 1, 7, 72, 69, 76, 76, 79, 116]) 72 69 76 76 79 116 [] rfl (by decide)

/-- C13: `checksum5` does not depend on the order of the payload bytes: a
permutation of a 5-byte payload has the same checksum. -/
theorem checksum5_order_independent (p q : List Nat) (hl : p.length = 5)
    (hp : p.Perm q) : checksum5 p = checksum5 q := by
  rw [checksum5_sum p hl, checksum5_sum q (hp.length_eq ▸ hl), hp.sum_eq]

/-- C13, witness: `HELLO` and `OLLEH`. -/
theorem checksum5_order_independent_witness :
    checksum5 [72, 69, 76, 76, 79] = checksum5 [79, 76, 76, 69, 72] :=
  checksum5_order_independent [72, 69, 76, 76, 79] [79, 76, 76, 69, 72] rfl (by decide)

/-- C14: when the port opens, the first operation after the open is the write of
one `NAK`, and the operation after it is a read, whatever the stream; when the
port does not open, nothing is read or written and the exit code is 1. -/
theorem handshake_nak_first (script : List Nat) :
    (∃ (r : Int) (t : List Op),
      (main true script).ops = Op.open true :: Op.write NAK :: Op.read r :: t) ∧
    (main true script).exitCode = 0 ∧
    (main false script).ops = [Op.open false] ∧
    (main false script).exitCode = 1 := by
  refine ⟨?_, by simp [main], by simp [main], by simp [main]⟩
  obtain ⟨r, t, h⟩ := loop_ops_read (initState script)
  refine ⟨r, t ++ [Op.close], ?_⟩
  have hm : (main true script).ops = (loop (initState script)).com.ops ++ [Op.close] := by
    simp [main, Serial.close]
  rw [hm, h]
  simp [initState, Serial.write]

/-- C15: after `SOH` the next 8 bytes are taken as block number, complement,
payload and checksum whatever their values: the iteration consumes exactly the
9 bytes and goes on, and a valid block with `EOT` in its payload is answered
with `ACK` and hands the `EOT` byte to the message. -/
theorem framing_unconditional (s : State) (n inv d0 d1 d2 d3 d4 chk : Nat)
    (rest : List Nat)
    (hs : s.com.script = SOH :: n :: inv :: d0 :: d1 :: d2 :: d3 :: d4 :: chk :: rest)
    (hr : ∀ b ∈ [n, inv, d0, d1, d2, d3, d4, chk], b < 256) :
    (loopBody s).1.com.script = rest ∧
    (loopBody s).2 = true ∧
    (inv = 255 - n → chk = (d0 + d1 + d2 + d3 + d4) % 256 →
      written (loopBody s).1.com.ops = written s.com.ops ++ [ACK] ∧
      (loopBody s).1.nachricht
        = s.nachricht ++ [d0, d1, d2, d3, d4].filter (fun c => c ≠ ETX) ∧
      (EOT ∈ [d0, d1, d2, d3, d4] → EOT ∈ (loopBody s).1.nachricht) ∧
      (SOH ∈ [d0, d1, d2, d3, d4] → SOH ∈ (loopBody s).1.nachricht)) := by
  have hb := loopBody_block s SOH n inv d0 d1 d2 d3 d4 chk rest hs (by decide) hr
  refine ⟨?_, ?_, ?_⟩
  · rw [hb]
    split_ifs <;> rfl
  · rw [hb]
  · intro hh hk
    rw [hb, if_neg (not_not.2 hh), if_neg (not_not.2 hk.symm)]
    refine ⟨by simp [written_append, written], rfl, ?_, ?_⟩
    · intro hmem
      exact List.mem_append_right _ (List.mem_filter.2 ⟨hmem, by decide⟩)
    · intro hmem
      exact List.mem_append_right _ (List.mem_filter.2 ⟨hmem, by decide⟩)

/-- C15, witness: a valid block with the payload `EOT SOH EOT A B`. -/
theorem framing_unconditional_witness :
    (loopBody (initState [SOH, 1, 254, 4, 1, 4, 65, 66, 140, 9])).1.com.script = [9] ∧
    (loopBody (initState [SOH, 1, 254, 4, 1, 4, 65, 66, 140, 9])).2 = true ∧
    written (loopBody (initState [SOH, 1, 254, 4, 1, 4, 65, 66, 140, 9])).1.com.ops
      = [NAK, ACK] ∧
    (loopBody (initState [SOH, 1, 254, 4, 1, 4, 65, 66, 140, 9])).1.nachricht
      = [4, 1, 4, 65, 66] ∧
    EOT ∈ (loopBody (initState [SOH, 1, 254, 4, 1, 4, 65, 66, 140, 9])).1.nachricht ∧
    SOH ∈ (loopBody (initState [SOH, 1, 254, 4, 1, 4, 65, 66, 140, 9])).1.nachricht :=
  have h := framing_unconditional (initState [SOH, 1, 254, 4, 1, 4, 65, 66, 140, 9])
    1 254 4 1 4 65 66 140 [9] rfl (by decide)
  ⟨h.1, h.2.1, (h.2.2 rfl rfl).1, (h.2.2 rfl rfl).2.1,
    (h.2.2 rfl rfl).2.2.1 (by decide), (h.2.2 rfl rfl).2.2.2 (by decide)⟩

/-- C17: the message is append-only: an iteration leaves the old message as a
prefix of the new one and adds at most 5 bytes, none unless it writes the `ACK`
of a block (an `ACK` after which the loop goes on); so the message the loop
ends with extends the one it began with. -/
theorem message_append_only (s : State) :
    s.nachricht <+: (loopBody s).1.nachricht ∧
    (loopBody s).1.nachricht.length ≤ s.nachricht.length + 5 ∧
    ((loopBody s).1.nachricht = s.nachricht ∨
      (written (loopBody s).1.com.ops = written s.com.ops ++ [ACK] ∧
        (loopBody s).2 = true)) ∧
    s.nachricht <+: (loop s).nachricht := by
  have hstep : ∀ t : State, t.nachricht <+: (loopBody t).1.nachricht ∧
      (loopBody t).1.nachricht.length ≤ t.nachricht.length + 5 ∧
      ((loopBody t).1.nachricht = t.nachricht ∨
        (written (loopBody t).1.com.ops = written t.com.ops ++ [ACK] ∧
          (loopBody t).2 = true)) := by
    intro t
    obtain ⟨r, l, w, c, hops, -, hcase⟩ := loopBody_outcome t
    rcases hcase with h | h | h | h | h
    · rw [h.2.2.1]
      exact ⟨List.prefix_refl _, by omega, Or.inl rfl⟩
    · rw [h.2.2.1]
      exact ⟨List.prefix_refl _, by omega, Or.inl rfl⟩
    · rw [h.2.2.1]
      exact ⟨List.prefix_refl _, by omega, Or.inl rfl⟩
    · rw [h.2.2.1]
      exact ⟨List.prefix_refl _, by omega, Or.inl rfl⟩
    · obtain ⟨hw, ⟨blk, -, hn⟩, -, hflag⟩ := h
      obtain ⟨u, hu, hlen⟩ := takeData_extends blk t.nachricht
      rw [hn, hu]
      refine ⟨List.prefix_append _ _, by simp only [List.length_append]; omega,
        Or.inr ⟨?_, hflag⟩⟩
      rw [hops, hw, written_append, written_append,
        show Op.read r :: l.map Op.read = (r :: l).map Op.read from rfl, written_readResults]
      simp [written]
  refine ⟨(hstep s).1, (hstep s).2.1, (hstep s).2.2, ?_⟩
  exact loop_induction (fun t => s.nachricht <+: t.nachricht)
    (fun t ht => List.IsPrefix.trans ht (hstep t).1) s (List.prefix_refl _)

/-- C18: on a run in which the port opened, the channel is closed exactly once,
and the close is the last operation on the channel. -/
theorem channel_closed_once_last (script : List Nat) :
    ∃ pre : List Op, (main true script).ops = pre ++ [Op.close] ∧ Op.close ∉ pre ∧
      (main true script).ops.count Op.close = 1 := by
  have hno : Op.close ∉ (loop (initState script)).com.ops :=
    loop_induction (fun t => Op.close ∉ t.com.ops) loopBody_no_close (initState script)
      (by simp [initState, Serial.write])
  have hm : (main true script).ops = (loop (initState script)).com.ops ++ [Op.close] := by
    simp [main, Serial.close]
  refine ⟨(loop (initState script)).com.ops, hm, hno, ?_⟩
  rw [hm, List.count_append, List.count_eq_zero_of_not_mem hno]
  simp

/-- C19: the receiving loop ends on every finite stream: it leaves the loop within
one iteration more than there are bytes left, also when the stream ends in the
middle of a block (there after exactly two iterations). -/
theorem loop_terminates (s : State) (k : Nat) :
    loopFuel (s.com.script.length + 1 + k) s = some (loop s) ∧
    loopFuel 1 (initState [SOH, 1, 254, 72]) = none ∧
    loopFuel 2 (initState [SOH, 1, 254, 72]) = some (loop (initState [SOH, 1, 254, 72])) := by
  refine ⟨loopFuel_enough _ s (by omega), by decide, ?_⟩
  rw [loop_truncated (initState [SOH, 1, 254, 72]) SOH [1, 254, 72] rfl (by decide)
    (by decide)]
  decide

/-- C16: at the end of every run the expected block number is one more than the
number of blocks acknowledged, reduced mod 256: it starts at 1 and each `ACK`
written for a block adds one. The `ACK` bytes written are those for blocks and
at most one for `EOT`. After 255 accepted blocks the number is 0. -/
theorem expected_block_counts_block_acks (script : List Nat) :
    (main true script).erwarteterBlock
      = (1 + (main true script).console.count Msg.blockOk) % 256 ∧
    (written (main true script).ops).count ACK
      = (main true script).console.count Msg.blockOk
        + (main true script).console.count Msg.eotErhalten ∧
    (main true script).console.count Msg.eotErhalten ≤ 1 ∧
    (main true ((List.replicate 255 (1, [72, 69, 76, 76, 79])).flatMap
      (fun blk => validBlock blk.1 blk.2))).erwarteterBlock = 0 := by
  have hinv := loop_invariant
    (fun t => t.erwarteterBlock = (1 + t.console.count Msg.blockOk) % 256 ∧
      (written t.com.ops).count ACK = t.console.count Msg.blockOk ∧
      t.console.count Msg.eotErhalten = 0)
    (fun t => t.erwarteterBlock = (1 + t.console.count Msg.blockOk) % 256 ∧
      (written t.com.ops).count ACK
        = t.console.count Msg.blockOk + t.console.count Msg.eotErhalten ∧
      t.console.count Msg.eotErhalten ≤ 1)
    (by
      intro t ⟨h1, h2, h3⟩ hc
      obtain ⟨he, hcase⟩ := (loopBody_counts t).1 hc
      rcases hcase with ⟨a1, a2, a3⟩ | ⟨a1, a2, a3⟩
      · exact ⟨by rw [a1, a2]; exact h1, by omega, by omega⟩
      · refine ⟨?_, by omega, by omega⟩
        rw [a1, a2, h1]
        omega)
    (by
      intro t ⟨h1, h2, h3⟩ hc
      obtain ⟨a1, a2, hcase⟩ := (loopBody_counts t).2 hc
      rcases hcase with ⟨a3, a4⟩ | ⟨a3, a4⟩
      · exact ⟨by rw [a1, a2]; exact h1, by omega, by omega⟩
      · exact ⟨by rw [a1, a2]; exact h1, by omega, by omega⟩)
    (initState script) (by simp [initState, Serial.write, written]; decide)
  have hwrap := loop_validBlocks_erw (List.replicate 255 (1, [72, 69, 76, 76, 79]))
    (initState ((List.replicate 255 (1, [72, 69, 76, 76, 79])).flatMap
      (fun blk => validBlock blk.1 blk.2)))
    (by
      intro blk hblk
      rw [List.eq_of_mem_replicate hblk]
      decide)
    rfl (by decide)
  refine ⟨?_, ?_, ?_, ?_⟩
  · simpa [main] using hinv.1
  · simpa [main, Serial.close, written_append, written] using hinv.2.1
  · simpa [main] using hinv.2.2
  · rw [main_true_erwarteterBlock, hwrap, List.length_replicate]
    rfl

end XModem
